import Mathlib

/-!
Shallow embedding of the `db-map` key-value abstraction

This file embeds the `DBMap` trait (src/db-map-trait/src/lib.rs), its error
model (src/db-map-trait/src/error.rs), and its two engines — the in-memory
`BTreeMapDB` (src/db-map-btreemap/src/lib.rs) and the LMDB-backed `LMDB`
(src/db-map-lmdb/src/lib.rs) — and proves the contract properties about them.

Modelling choices:

* Keys and values are opaque byte strings; the contract observes them only
  through exact equality, so the embedding is parametric in a key type `κ`
  with decidable equality and a value type `ν`.  Where the Rust API fixes
  values to `Vec<u8>` (the owned-copy operations `get` and
  `fetch_and_replace`), values are `List α` and the `to_vec` identity copy is
  the explicit `toVec` function.
* The backing `BTreeMap<Vec<u8>, Vec<u8>>` and the LMDB sub-database are both
  finite maps from keys to values, modelled as association lists (`Store`).
  `BTreeMap`'s lexicographic key order is an implementation detail no contract
  operation observes.
* Rust methods become state-passing functions `Store → … → Result T × Store`.
  The `parking_lot::Mutex` in `BTreeMapDB` serializes operations; the
  embedding gives exactly that serialized (sequential) semantics.
* The LMDB binding is modelled through the transaction primitives the code
  calls: `txnGet`/`txnPut`/`txnDel` (lmdb-rkv `Transaction::get`,
  `RwTransaction::put`, `RwTransaction::del`).  LMDB reports absence of a key
  as the distinguished error `MDB_NOTFOUND` from both `mdb_get` and `mdb_del`;
  this signal is part of the model (`LMDBError.NotFound`).  Environment-level
  failures (I/O errors, map-full, reader-slot exhaustion) and engine size
  limits are outside the model: `txnPut` and commit always succeed.  When an
  operation returns early with an error, the dropped transaction aborts and
  the store is unchanged.
* Handles are cloneable references to one logical store (`Arc` in both
  engines).  This is modelled by a heap of stores (`Heap`) with a `Handle`
  holding an index into it; `#[derive(Clone)]` on an `Arc`-holding struct
  clones the reference, not the store, so `Handle.clone` returns the same
  index.
-/

set_option autoImplicit false

namespace DBMapModel

universe u v w

variable {κ : Type u} {ν : Type v} {α : Type u} {T : Type w}

/-- Errors reported by the lmdb-rkv crate (`lmdb::Error`), as far as the code
under `src/` distinguishes them: the distinguished not-found signal
`MDB_NOTFOUND`, and every other engine error (abstracted to a numeric code). -/
inductive LMDBError : Type where
  | NotFound : LMDBError
  | Other : Nat → LMDBError
deriving DecidableEq

/-- The `DBMap` error taxonomy from src/db-map-trait/src/error.rs: `IoError`
wraps a `std::io::Error` (abstracted to a numeric code) and `DBError` wraps an
`anyhow::Error`; in the code under `src/` the only payload ever wrapped into
`DBError` is an `lmdb::Error`. -/
inductive Error : Type where
  | IoError : Nat → Error
  | DBError : LMDBError → Error
deriving DecidableEq

/-- The `Result<T>` alias from src/db-map-trait/src/error.rs. -/
abbrev Result (T : Type w) : Type w := Except Error T

/-- A finite byte-string map: the state of one logical store.  Models both the
`BTreeMap<Vec<u8>, Vec<u8>>` backing `BTreeMapDB` and the LMDB sub-database. -/
abbrev Store (κ : Type u) (ν : Type v) : Type (max u v) := List (κ × ν)

namespace Store

variable [DecidableEq κ]

/-- Lookup of a key (`BTreeMap::get` / `mdb_get`'s success case). -/
def lookup : Store κ ν → κ → Option ν
  | [], _ => none
  | (k, v) :: rest, key => if k = key then some v else lookup rest key

/-- Store a value under a key, overwriting any prior value
(the mutation performed by `BTreeMap::insert` / `mdb_put`). -/
def set : Store κ ν → κ → ν → Store κ ν
  | [], key, val => [(key, val)]
  | (k, v) :: rest, key, val =>
    if k = key then (key, val) :: rest else (k, v) :: set rest key val

/-- Drop the entry for a key if present
(the mutation performed by `BTreeMap::remove` / `mdb_del`). -/
def erase : Store κ ν → κ → Store κ ν
  | [], _ => []
  | (k, v) :: rest, key =>
    if k = key then erase rest key else (k, v) :: erase rest key

/-- Model of `BTreeMap::insert`: stores the value and returns the previous value. -/
def insertBT (s : Store κ ν) (key : κ) (val : ν) : Option ν × Store κ ν :=
  (s.lookup key, s.set key val)

end Store

/-- The identity copy `<[u8]>::to_vec`, building an owned copy of a borrowed
byte slice element by element. -/
def toVec : List α → List α
  | [] => []
  | a :: rest => a :: toVec rest

/-!
The in-memory engine: `BTreeMapDB` (src/db-map-btreemap/src/lib.rs)

Every method locks the shared `Mutex`, operates on the `BTreeMap`, and
releases the lock; the embedding is the resulting serialized semantics, a
function from the pre-state to the method result and the post-state.
-/

namespace BTreeMapDB

variable [DecidableEq κ]

/-- Embedding of `BTreeMapDB::get_map` (lines 49-57): looks up the key under the lock and
maps the caller's transform over the borrowed value; never errs. -/
def get_map (s : Store κ ν) (key : κ) (mapper : ν → T) :
    Result (Option T) × Store κ ν :=
  (.ok ((s.lookup key).map mapper), s)

/-- Embedding of `BTreeMapDB::insert` (lines 59-64): stores the value under the key,
discarding `BTreeMap::insert`'s returned previous value; never errs. -/
def insert (s : Store κ ν) (key : κ) (val : ν) : Result Unit × Store κ ν :=
  (.ok (), (s.insertBT key val).2)

/-- Embedding of `BTreeMapDB::fetch_and_replace` (lines 66-74), the direct override of the
trait default: returns `BTreeMap::insert`'s previous value unchanged. -/
def fetch_and_replace (s : Store κ ν) (key : κ) (val : ν) :
    Result (Option ν) × Store κ ν :=
  let pv := s.insertBT key val
  (.ok pv.1, pv.2)

/-- Embedding of `BTreeMapDB::fetch_and_replace_map` (lines 76-86): stores the value and
returns the caller's transform of the previous value. -/
def fetch_and_replace_map (s : Store κ ν) (key : κ) (val : ν) (mapper : ν → T) :
    Result (Option T) × Store κ ν :=
  let pv := s.insertBT key val
  (.ok (pv.1.map mapper), pv.2)

/-- Embedding of `BTreeMapDB::remove` (lines 88-93): drops the entry, discarding
`BTreeMap::remove`'s returned previous value; never errs. -/
def remove (s : Store κ ν) (key : κ) : Result Unit × Store κ ν :=
  (.ok (), s.erase key)

/-- The trait-default `DBMap::get` (src/db-map-trait/src/lib.rs lines 48-51):
`self.get_map(key, |k| k.to_vec())`. -/
def get (s : Store κ (List α)) (key : κ) :
    Result (Option (List α)) × Store κ (List α) :=
  get_map s key (fun b => toVec b)

/-- The trait-default `DBMap::fetch_and_replace` (src/db-map-trait/src/lib.rs
lines 172-178), which `BTreeMapDB` overrides:
`self.fetch_and_replace_map(key, value, |k| k.to_vec())`. -/
def fetch_and_replace_default (s : Store κ (List α)) (key : κ)
    (val : List α) : Result (Option (List α)) × Store κ (List α) :=
  fetch_and_replace_map s key val (fun b => toVec b)

end BTreeMapDB

/-!
The LMDB-backed engine: (src/db-map-lmdb/src/lib.rs)

Every public operation opens exactly one transaction against the shared
environment; the embedding composes the transaction primitives on the
sub-database state.
-/

namespace LMDB

variable [DecidableEq κ]

/-- lmdb-rkv `Transaction::get` (`mdb_get`): the stored bytes when the key is
present, the distinguished `MDB_NOTFOUND` error when absent. -/
def txnGet (s : Store κ ν) (key : κ) : Except LMDBError ν :=
  match s.lookup key with
  | some v => .ok v
  | none => .error .NotFound

/-- lmdb-rkv `RwTransaction::put` with empty `WriteFlags` (`mdb_put`): stores
the value under the key, overwriting any prior value.  Environment failures
(map-full, I/O) are outside the model. -/
def txnPut (s : Store κ ν) (key : κ) (val : ν) : Except LMDBError (Store κ ν) :=
  .ok (s.set key val)

/-- lmdb-rkv `RwTransaction::del` with no data argument (`mdb_del`): removes
the entry when the key is present, and reports the distinguished
`MDB_NOTFOUND` error when the key is absent. -/
def txnDel (s : Store κ ν) (key : κ) : Except LMDBError (Store κ ν) :=
  match s.lookup key with
  | some _ => .ok (s.erase key)
  | none => .error .NotFound

/-- Embedding of `LMDB::get_map` (lines 160-172): a read-only transaction looks up the key;
a found value is passed to the transform, `NotFound` becomes `Ok(None)`, any
other engine error is wrapped into the `DBMap` error. -/
def get_map (s : Store κ ν) (key : κ) (mapper : ν → T) :
    Result (Option T) × Store κ ν :=
  match txnGet s key with
  | .ok result => (.ok (some (mapper result)), s)
  | .error .NotFound => (.ok none, s)
  | .error err => (.error (.DBError err), s)

/-- Embedding of `LMDB::insert` (lines 174-180): a read-write transaction puts the value
and commits; an error before commit aborts with the store unchanged. -/
def insert (s : Store κ ν) (key : κ) (val : ν) : Result Unit × Store κ ν :=
  match txnPut s key val with
  | .ok committed => (.ok (), committed)
  | .error e => (.error (.DBError e), s)

/-- Embedding of `LMDB::fetch_and_replace_map` (lines 182-198): one read-write transaction
reads the current value (mapping `NotFound` to `None` and early-returning on
any other error, which aborts), applies the transform to the pre-image, puts
the new value, and commits. -/
def fetch_and_replace_map (s : Store κ ν) (key : κ) (val : ν) (mapper : ν → T) :
    Result (Option T) × Store κ ν :=
  let pre : Except Error (Option T) :=
    match txnGet s key with
    | .ok result => .ok (some (mapper result))
    | .error .NotFound => .ok none
    | .error err => .error (.DBError err)
  match pre with
  | .error e => (.error e, s)
  | .ok result =>
    match txnPut s key val with
    | .ok committed => (.ok result, committed)
    | .error e => (.error (.DBError e), s)

/-- Embedding of `LMDB::remove` (lines 200-206): a read-write transaction deletes the key
and commits; every `mdb_del` error — including `MDB_NOTFOUND` for an absent
key — is wrapped into the `DBMap` error and aborts the transaction. -/
def remove (s : Store κ ν) (key : κ) : Result Unit × Store κ ν :=
  match txnDel s key with
  | .ok committed => (.ok (), committed)
  | .error e => (.error (.DBError e), s)

/-- The trait-default `DBMap::get` instantiated for `LMDB`:
`self.get_map(key, |k| k.to_vec())`. -/
def get (s : Store κ (List α)) (key : κ) :
    Result (Option (List α)) × Store κ (List α) :=
  get_map s key (fun b => toVec b)

/-- The trait-default `DBMap::fetch_and_replace` instantiated for `LMDB`:
`self.fetch_and_replace_map(key, value, |k| k.to_vec())`. -/
def fetch_and_replace (s : Store κ (List α)) (key : κ) (val : List α) :
    Result (Option (List α)) × Store κ (List α) :=
  fetch_and_replace_map s key val (fun b => toVec b)

end LMDB

/-!
Handles and clones.

Both engines' handle types hold `Arc` references to the shared state
(`BTreeMapDB(Arc<Mutex<RefCell<BTreeMap<..>>>>)` at
src/db-map-btreemap/src/lib.rs line 18; `LMDB { env: Arc<Environment>, db:
Arc<Database> }` at src/db-map-lmdb/src/lib.rs lines 104-108), and both derive
`Clone`, which clones the `Arc`s: the clone references the same underlying
store.  The embedding uses a heap of stores; a handle is an index into the
heap, and cloning a handle copies the index, not the store.
-/

/-- A handle to one logical store: a reference (heap index) to shared state. -/
structure Handle : Type where
  idx : Nat
deriving DecidableEq

/-- Embedding of `#[derive(Clone)]` on an `Arc`-holding handle: the clone holds references
to the very same underlying store. -/
def Handle.clone (h : Handle) : Handle :=
  ⟨h.idx⟩

/-- A heap of logical stores, indexed by `Handle.idx`. -/
abbrev Heap (κ : Type u) (ν : Type v) : Type (max u v) := List (Store κ ν)

namespace Heap

/-- The store a handle refers to. -/
def store (H : Heap κ ν) (h : Handle) : Store κ ν :=
  H.getD h.idx []

/-- Replace the store a handle refers to. -/
def update (H : Heap κ ν) (h : Handle) (s : Store κ ν) : Heap κ ν :=
  H.set h.idx s

end Heap

namespace BTreeMapDB

variable [DecidableEq κ]

/-- Embedding of `BTreeMapDB::insert` invoked through a handle: mutates the shared store
the handle refers to. -/
def hInsert (H : Heap κ ν) (h : Handle) (key : κ) (val : ν) :
    Result Unit × Heap κ ν :=
  let rs := insert (H.store h) key val
  (rs.1, H.update h rs.2)

/-- Embedding of `BTreeMapDB::fetch_and_replace` invoked through a handle. -/
def hReplace (H : Heap κ ν) (h : Handle) (key : κ) (val : ν) :
    Result (Option ν) × Heap κ ν :=
  let rs := fetch_and_replace (H.store h) key val
  (rs.1, H.update h rs.2)

/-- Embedding of `BTreeMapDB::remove` invoked through a handle. -/
def hRemove (H : Heap κ ν) (h : Handle) (key : κ) :
    Result Unit × Heap κ ν :=
  let rs := remove (H.store h) key
  (rs.1, H.update h rs.2)

/-- The trait-default `get` invoked through a handle (reads do not change the
heap, so only the result is returned). -/
def hGet (H : Heap κ (List α)) (h : Handle) (key : κ) :
    Result (Option (List α)) :=
  (get (H.store h) key).1

/-- A sequence of `fetch_and_replace` calls on one key through the trait
(db-map-test's `fetch_and_replace_test` loop, src/db-map-test/src/lib.rs
lines 190-195): returns the list of per-call results and the final store. -/
def replaceSeq (key : κ) : Store κ ν → List ν →
    List (Result (Option ν)) × Store κ ν
  | s, [] => ([], s)
  | s, v :: vs =>
    let rs := fetch_and_replace s key v
    let rest := replaceSeq key rs.2 vs
    (rs.1 :: rest.1, rest.2)

end BTreeMapDB

namespace LMDB

variable [DecidableEq κ]

/-- Embedding of `LMDB::insert` invoked through a handle: mutates the shared sub-database
the handle refers to. -/
def hInsert (H : Heap κ ν) (h : Handle) (key : κ) (val : ν) :
    Result Unit × Heap κ ν :=
  let rs := insert (H.store h) key val
  (rs.1, H.update h rs.2)

/-- The trait-default `fetch_and_replace` invoked through a handle. -/
def hReplace (H : Heap κ (List α)) (h : Handle) (key : κ) (val : List α) :
    Result (Option (List α)) × Heap κ (List α) :=
  let rs := fetch_and_replace (H.store h) key val
  (rs.1, H.update h rs.2)

/-- Embedding of `LMDB::remove` invoked through a handle. -/
def hRemove (H : Heap κ ν) (h : Handle) (key : κ) :
    Result Unit × Heap κ ν :=
  let rs := remove (H.store h) key
  (rs.1, H.update h rs.2)

/-- The trait-default `get` invoked through a handle. -/
def hGet (H : Heap κ (List α)) (h : Handle) (key : κ) :
    Result (Option (List α)) :=
  (get (H.store h) key).1

/-- A sequence of trait-default `fetch_and_replace` calls on one key through
the `LMDB` engine: per-call results and the final store. -/
def replaceSeq (key : κ) : Store κ (List α) → List (List α) →
    List (Result (Option (List α))) × Store κ (List α)
  | s, [] => ([], s)
  | s, v :: vs =>
    let rs := fetch_and_replace s key v
    let rest := replaceSeq key rs.2 vs
    (rs.1 :: rest.1, rest.2)

end LMDB

/-- The per-call results the contract predicts for a `fetch_and_replace`
sequence: each call returns the value the previous call stored (`prev` for
the first call). -/
def expectedOuts (prev : Option ν) : List ν → List (Result (Option ν))
  | [] => []
  | v :: vs => .ok prev :: expectedOuts (some v) vs

/-!
Laws of the store model and the engine operations.
-/

theorem toVec_eq (l : List α) : toVec l = l := by
  induction l with
  | nil => rfl
  | cons a rest ih => simp [toVec, ih]

theorem Option.map_toVec (o : Option (List α)) :
    o.map (fun b => toVec b) = o := by
  cases o <;> simp [toVec_eq]

namespace Store

variable [DecidableEq κ]

theorem lookup_set_self (s : Store κ ν) (key : κ) (val : ν) :
    (s.set key val).lookup key = some val := by
  induction s with
  | nil => simp [Store.set, Store.lookup]
  | cons p rest ih =>
    by_cases hk : p.1 = key
    · simp [Store.set, hk, Store.lookup]
    · simp [Store.set, hk, Store.lookup, ih]

theorem lookup_set_ne (s : Store κ ν) (key other : κ) (val : ν)
    (h : other ≠ key) : (s.set key val).lookup other = s.lookup other := by
  have hk2 : key ≠ other := Ne.symm h
  induction s with
  | nil => simp [Store.set, Store.lookup, hk2]
  | cons p rest ih =>
    obtain ⟨k1, v1⟩ := p
    by_cases hk : k1 = key
    · subst hk
      simp [Store.set, Store.lookup, hk2]
    · simp [Store.set, hk, Store.lookup, ih]

theorem lookup_erase_self (s : Store κ ν) (key : κ) :
    (s.erase key).lookup key = none := by
  induction s with
  | nil => simp [Store.erase, Store.lookup]
  | cons p rest ih =>
    by_cases hk : p.1 = key
    · simp [Store.erase, hk, ih]
    · simp [Store.erase, hk, Store.lookup, ih]

end Store

theorem getD_set_self {β : Type w} :
    ∀ (L : List β) (i : Nat) (x d : β), i < L.length →
      (L.set i x).getD i d = x := by
  intro L
  induction L with
  | nil => intro i x d h; simp at h
  | cons b rest ih =>
    intro i x d h
    cases i with
    | zero => rfl
    | succ j =>
      have hj : j < rest.length := by
        simpa [List.length] using h
      simpa [List.set, List.getD] using ih j x d hj

namespace BTreeMapDB

variable [DecidableEq κ]

theorem bt_get_eq (s : Store κ (List α)) (key : κ) :
    get s key = (.ok (s.lookup key), s) := by
  simp [get, get_map, Option.map_toVec]

theorem bt_fetch_and_replace_eq (s : Store κ ν) (key : κ) (val : ν) :
    fetch_and_replace s key val = (.ok (s.lookup key), s.set key val) := by
  simp [fetch_and_replace, Store.insertBT]

end BTreeMapDB

namespace LMDB

variable [DecidableEq κ]

theorem get_map_eq (s : Store κ ν) (key : κ) (mapper : ν → T) :
    get_map s key mapper = (.ok ((s.lookup key).map mapper), s) := by
  cases hl : s.lookup key <;> simp [get_map, txnGet, hl]

theorem lmdb_get_eq (s : Store κ (List α)) (key : κ) :
    get s key = (.ok (s.lookup key), s) := by
  simp [get, get_map_eq, Option.map_toVec]

theorem insert_eq (s : Store κ ν) (key : κ) (val : ν) :
    insert s key val = (.ok (), s.set key val) := rfl

theorem fetch_and_replace_map_eq (s : Store κ ν) (key : κ) (val : ν)
    (mapper : ν → T) :
    fetch_and_replace_map s key val mapper =
      (.ok ((s.lookup key).map mapper), s.set key val) := by
  cases hl : s.lookup key <;> simp [fetch_and_replace_map, txnGet, txnPut, hl]

theorem lmdb_fetch_and_replace_eq (s : Store κ (List α)) (key : κ)
    (val : List α) :
    fetch_and_replace s key val = (.ok (s.lookup key), s.set key val) := by
  simp [fetch_and_replace, fetch_and_replace_map_eq, Option.map_toVec]

theorem remove_present (s : Store κ ν) (key : κ) (val : ν)
    (h : s.lookup key = some val) :
    remove s key = (.ok (), s.erase key) := by
  simp [remove, txnDel, h]

theorem remove_absent (s : Store κ ν) (key : κ)
    (h : s.lookup key = none) :
    remove s key = (.error (.DBError .NotFound), s) := by
  simp [remove, txnDel, h]

theorem fetch_and_replace_agree (s : Store κ (List α)) (key : κ)
    (val : List α) :
    fetch_and_replace s key val = BTreeMapDB.fetch_and_replace s key val := by
  rw [lmdb_fetch_and_replace_eq, BTreeMapDB.bt_fetch_and_replace_eq]

end LMDB

theorem replaceSeq_agree [DecidableEq κ] (key : κ) :
    ∀ (s : Store κ (List α)) (vs : List (List α)),
      LMDB.replaceSeq key s vs = BTreeMapDB.replaceSeq key s vs := by
  intro s vs
  induction vs generalizing s with
  | nil => rfl
  | cons v rest ih =>
    simp [LMDB.replaceSeq, BTreeMapDB.replaceSeq, LMDB.fetch_and_replace_agree,
      ih]

theorem replaceSeq_outs [DecidableEq κ] (key : κ) :
    ∀ (s : Store κ ν) (vs : List ν),
      (BTreeMapDB.replaceSeq key s vs).1 = expectedOuts (s.lookup key) vs := by
  intro s vs
  induction vs generalizing s with
  | nil => rfl
  | cons v rest ih =>
    simp [BTreeMapDB.replaceSeq, BTreeMapDB.bt_fetch_and_replace_eq, expectedOuts,
      ih, Store.lookup_set_self]

theorem replaceSeq_lookup [DecidableEq κ] (key : κ) :
    ∀ (s : Store κ ν) (vs : List ν), vs ≠ [] →
      ((BTreeMapDB.replaceSeq key s vs).2).lookup key = vs.getLast? := by
  intro s vs
  induction vs generalizing s with
  | nil => intro h; exact absurd rfl h
  | cons v rest ih =>
    intro _
    cases rest with
    | nil =>
      simp [BTreeMapDB.replaceSeq, BTreeMapDB.bt_fetch_and_replace_eq,
        Store.lookup_set_self]
    | cons w ws =>
      have := ih ((s.set key v)) (by simp)
      simpa [BTreeMapDB.replaceSeq, BTreeMapDB.bt_fetch_and_replace_eq] using this

theorem Heap.store_update_self (H : Heap κ ν) (h : Handle) (s : Store κ ν)
    (hb : h.idx < H.length) : (H.update h s).store h = s :=
  getD_set_self H h.idx s [] hb

theorem Heap.length_update (H : Heap κ ν) (h : Handle) (s : Store κ ν) :
    (H.update h s).length = H.length :=
  List.length_set H h.idx s

theorem expectedOuts_eq (prev : Option ν) :
    ∀ (vs : List ν), vs ≠ [] →
      expectedOuts prev vs =
        .ok prev :: vs.dropLast.map (fun v => Except.ok (some v)) := by
  intro vs
  induction vs generalizing prev with
  | nil => intro h; exact absurd rfl h
  | cons v rest ih =>
    intro _
    cases rest with
    | nil => rfl
    | cons w ws =>
      have := ih (some v) (by simp)
      simp [expectedOuts] at this ⊢
      exact this

theorem Heap.store_clone (H : Heap κ ν) (h : Handle) :
    H.store (Handle.clone h) = H.store h := rfl

theorem BTreeMapDB.bt_hGet_update [DecidableEq κ] (H : Heap κ (List α))
    (hd : Handle) (s : Store κ (List α)) (k : κ) (hb : hd.idx < H.length) :
    BTreeMapDB.hGet (H.update hd s) (Handle.clone hd) k = .ok (s.lookup k) := by
  unfold BTreeMapDB.hGet
  rw [Heap.store_clone, Heap.store_update_self H hd s hb, BTreeMapDB.bt_get_eq]

theorem LMDB.lmdb_hGet_update [DecidableEq κ] (H : Heap κ (List α))
    (hd : Handle) (s : Store κ (List α)) (k : κ) (hb : hd.idx < H.length) :
    LMDB.hGet (H.update hd s) (Handle.clone hd) k = .ok (s.lookup k) := by
  unfold LMDB.hGet
  rw [Heap.store_clone, Heap.store_update_self H hd s hb, LMDB.lmdb_get_eq]

/-!
The claims.
-/

/-- Claim C3: for both engines, `insert` unconditionally stores the value
under the key, returns `Ok(())` without the prior value, and a subsequent
`get` of that key returns `Ok(Some v)`, regardless of what the key previously
held. -/
theorem C3_insert_then_get [DecidableEq κ] (s t : Store κ (List α)) (k : κ)
    (v : List α) :
    (BTreeMapDB.insert s k v).1 = .ok ()
    ∧ (BTreeMapDB.get (BTreeMapDB.insert s k v).2 k).1 = .ok (some v)
    ∧ (LMDB.insert t k v).1 = .ok ()
    ∧ (LMDB.get (LMDB.insert t k v).2 k).1 = .ok (some v) := by
  refine ⟨rfl, ?_, rfl, ?_⟩
  · simp [BTreeMapDB.insert, Store.insertBT, BTreeMapDB.bt_get_eq,
      Store.lookup_set_self]
  · simp [LMDB.insert_eq, LMDB.lmdb_get_eq, Store.lookup_set_self]

/-- Claim C8: for both engines, `insert k v` followed by `remove k` leaves the
key absent: a subsequent `get k` returns `Ok(None)`. -/
theorem C8_insert_remove_get [DecidableEq κ] (s t : Store κ (List α)) (k : κ)
    (v : List α) :
    (BTreeMapDB.get
        (BTreeMapDB.remove (BTreeMapDB.insert s k v).2 k).2 k).1 = .ok none
    ∧ (LMDB.get (LMDB.remove (LMDB.insert t k v).2 k).2 k).1 = .ok none := by
  constructor
  · simp [BTreeMapDB.insert, Store.insertBT, BTreeMapDB.remove,
      BTreeMapDB.bt_get_eq, Store.lookup_erase_self]
  · rw [LMDB.insert_eq]
    rw [LMDB.remove_present (Store.set t k v) k v (Store.lookup_set_self t k v)]
    simp [LMDB.lmdb_get_eq, Store.lookup_erase_self]

/-- Claim C10: every `DBMap` operation of the in-memory `BTreeMapDB` engine is
total: for every store state, key, value, and transform, the result is the
`Ok` variant (never `Err`). -/
theorem C10_btreemap_total [DecidableEq κ] (s : Store κ (List α)) (k : κ)
    (v : List α) (F : List α → T) :
    (∃ x, (BTreeMapDB.get s k).1 = .ok x)
    ∧ (∃ x, (BTreeMapDB.get_map s k F).1 = .ok x)
    ∧ (BTreeMapDB.insert s k v).1 = .ok ()
    ∧ (∃ x, (BTreeMapDB.fetch_and_replace s k v).1 = .ok x)
    ∧ (∃ x, (BTreeMapDB.fetch_and_replace_map s k v F).1 = .ok x)
    ∧ (BTreeMapDB.remove s k).1 = .ok () :=
  ⟨⟨(s.lookup k).map (fun b => toVec b), rfl⟩,
   ⟨(s.lookup k).map F, rfl⟩,
   rfl,
   ⟨s.lookup k, rfl⟩,
   ⟨(s.lookup k).map F, rfl⟩,
   rfl⟩

/-- Claim C7: for both engines, `fetch_and_replace_map k v F` applies the
transform `F` only to the value stored under `k` before the call — returning
`Ok(Some (F old))` when one existed and `Ok(None)` (with no value for `F` to
act on) otherwise — never to the newly written `v`, and leaves `v` stored
under `k` on success. -/
theorem C7_replace_map_transforms_only_old [DecidableEq κ] (s t : Store κ ν)
    (k : κ) (v : ν) (F : ν → T) :
    (BTreeMapDB.fetch_and_replace_map s k v F).1 = .ok ((s.lookup k).map F)
    ∧ ((BTreeMapDB.fetch_and_replace_map s k v F).2).lookup k = some v
    ∧ (LMDB.fetch_and_replace_map t k v F).1 = .ok ((t.lookup k).map F)
    ∧ ((LMDB.fetch_and_replace_map t k v F).2).lookup k = some v := by
  refine ⟨rfl, ?_, ?_, ?_⟩
  · simp [BTreeMapDB.fetch_and_replace_map, Store.insertBT,
      Store.lookup_set_self]
  · rw [LMDB.fetch_and_replace_map_eq]
  · rw [LMDB.fetch_and_replace_map_eq]
    exact Store.lookup_set_self t k v

/-- Claim C5: for both engines, the owned-copy operations equal the transform
operations specialized with the identity copy transform `|b| b.to_vec()`:
`get` equals `get_map` at `toVec`, and `fetch_and_replace` — including
`BTreeMapDB`'s direct override of the trait default — equals
`fetch_and_replace_map` at `toVec`, in both result and resulting store
state. -/
theorem C5_owned_ops_equal_identity_transform [DecidableEq κ]
    (s t : Store κ (List α)) (k : κ) (v : List α) :
    BTreeMapDB.get s k = BTreeMapDB.get_map s k (fun b => toVec b)
    ∧ LMDB.get t k = LMDB.get_map t k (fun b => toVec b)
    ∧ BTreeMapDB.fetch_and_replace s k v
        = BTreeMapDB.fetch_and_replace_map s k v (fun b => toVec b)
    ∧ BTreeMapDB.fetch_and_replace s k v
        = BTreeMapDB.fetch_and_replace_default s k v
    ∧ LMDB.fetch_and_replace t k v
        = LMDB.fetch_and_replace_map t k v (fun b => toVec b) := by
  refine ⟨rfl, rfl, ?_, ?_, rfl⟩
  · simp [BTreeMapDB.fetch_and_replace, BTreeMapDB.fetch_and_replace_map,
      Option.map_toVec]
  · simp [BTreeMapDB.fetch_and_replace, BTreeMapDB.fetch_and_replace_default,
      BTreeMapDB.fetch_and_replace_map, Option.map_toVec]

/-- Claim C6: for both engines and any pure transform, `get_map k F` returns
`Ok(Some (F bytes))` with `bytes` exactly the stored value when `k` is
present; on a store where `k` is absent it returns `Ok(None)` with the result
not depending on the transform; and `get_map k F` equals mapping `F` over the
value returned by `get k`. -/
theorem C6_get_map_transform [DecidableEq κ] (s t s0 t0 : Store κ (List α))
    (k : κ) (F G : List α → T) (hs0 : s0.lookup k = none)
    (ht0 : t0.lookup k = none) :
    BTreeMapDB.get_map s k F = (.ok ((s.lookup k).map F), s)
    ∧ LMDB.get_map t k F = (.ok ((t.lookup k).map F), t)
    ∧ BTreeMapDB.get_map s0 k G = (.ok none, s0)
    ∧ LMDB.get_map t0 k G = (.ok none, t0)
    ∧ (BTreeMapDB.get_map s k F).1
        = Except.map (Option.map F) (BTreeMapDB.get s k).1
    ∧ (LMDB.get_map t k F).1 = Except.map (Option.map F) (LMDB.get t k).1 := by
  refine ⟨rfl, LMDB.get_map_eq t k F, ?_, ?_, ?_, ?_⟩
  · simp [BTreeMapDB.get_map, hs0]
  · simp [LMDB.get_map_eq, ht0]
  · rw [BTreeMapDB.bt_get_eq]
    simp [BTreeMapDB.get_map, Except.map]
  · rw [LMDB.lmdb_get_eq, LMDB.get_map_eq]
    simp [Except.map]

/-- Claim C6 witness: the theorem applied at a present key on a one-entry
store and at the empty store for the absent-key conjuncts. -/
theorem C6_get_map_transform_witness :
    Store.lookup ([] : Store (List Nat) (List Nat)) [1] = none
    ∧ BTreeMapDB.get_map ([([1], [5])] : Store (List Nat) (List Nat)) [1]
        (fun b => b.length) = (.ok (some 1), [([1], [5])])
    ∧ LMDB.get_map ([] : Store (List Nat) (List Nat)) [1]
        (fun b => b.length) = (.ok none, []) :=
  ⟨rfl,
   (C6_get_map_transform [([1], [5])] [([1], [5])] [] [] [1]
      (fun b => b.length) (fun b => b.length) rfl rfl).1,
   (C6_get_map_transform [([1], [5])] [([1], [5])] [] [] [1]
      (fun b => b.length) (fun b => b.length) rfl rfl).2.2.2.1⟩

/-- Claim C2: for both engines, starting from a store where key `k` is
absent, a sequence of `fetch_and_replace` calls with values `vs = [V1..VN]`
(`N ≥ 1`) returns `Ok(None)` from the first call and `Ok(Some V(i-1))` from
each later call, and afterwards `get k` returns `Ok(Some VN)`. -/
theorem C2_replace_sequence [DecidableEq κ] (s : Store κ (List α)) (k : κ)
    (vs : List (List α)) (habs : s.lookup k = none) (hne : vs ≠ []) :
    (BTreeMapDB.replaceSeq k s vs).1
        = .ok none :: vs.dropLast.map (fun v => Except.ok (some v))
    ∧ (BTreeMapDB.get (BTreeMapDB.replaceSeq k s vs).2 k).1
        = .ok (some (vs.getLast hne))
    ∧ (LMDB.replaceSeq k s vs).1
        = .ok none :: vs.dropLast.map (fun v => Except.ok (some v))
    ∧ (LMDB.get (LMDB.replaceSeq k s vs).2 k).1
        = .ok (some (vs.getLast hne)) := by
  have houts := replaceSeq_outs k s vs
  rw [habs] at houts
  have hexp := expectedOuts_eq (none : Option (List α)) vs hne
  have hlast : vs.getLast? = some (vs.getLast hne) :=
    List.getLast?_eq_getLast_of_ne_nil hne
  have hlook := replaceSeq_lookup k s vs hne
  refine ⟨?_, ?_, ?_, ?_⟩
  · rw [houts, hexp]
  · rw [BTreeMapDB.bt_get_eq, hlook, hlast]
  · rw [replaceSeq_agree, houts, hexp]
  · rw [replaceSeq_agree, LMDB.lmdb_get_eq, hlook, hlast]

/-- Claim C2 witness: the two-value sequence `[[2], [3]]` on key `[1]` of the
empty store ends with `get` returning the second value. -/
theorem C2_replace_sequence_witness :
    Store.lookup ([] : Store (List Nat) (List Nat)) [1] = none
    ∧ ([[2], [3]] : List (List Nat)) ≠ []
    ∧ (BTreeMapDB.get
        (BTreeMapDB.replaceSeq [1]
          ([] : Store (List Nat) (List Nat)) [[2], [3]]).2 [1]).1
        = .ok (some [3])
    ∧ (BTreeMapDB.replaceSeq [1]
        ([] : Store (List Nat) (List Nat)) [[2], [3]]).1
        = [.ok none, .ok (some [2])] :=
  ⟨rfl, by simp,
   (C2_replace_sequence [] [1] [[2], [3]] rfl (by simp)).2.1,
   (C2_replace_sequence [] [1] [[2], [3]] rfl (by simp)).1⟩

/-- Claim C4: for both engines, a clone of a handle is the same reference to
the same underlying store, so a write (`insert`, `fetch_and_replace`, or
`remove`) through a handle is observed by a subsequent `get` through the
clone: inserting or replacing `v` under `k` makes the clone's `get k` return
`Ok(Some v)`, and removing an inserted key makes the clone's `get k` return
`Ok(None)`. -/
theorem C4_clone_shares_store [DecidableEq κ] (H : Heap κ (List α))
    (hd : Handle) (k : κ) (v : List α) (hb : hd.idx < H.length) :
    Handle.clone hd = hd
    ∧ BTreeMapDB.hGet (BTreeMapDB.hInsert H hd k v).2 (Handle.clone hd) k
        = .ok (some v)
    ∧ BTreeMapDB.hGet (BTreeMapDB.hReplace H hd k v).2 (Handle.clone hd) k
        = .ok (some v)
    ∧ BTreeMapDB.hGet
        (BTreeMapDB.hRemove (BTreeMapDB.hInsert H hd k v).2 hd k).2
        (Handle.clone hd) k = .ok none
    ∧ LMDB.hGet (LMDB.hInsert H hd k v).2 (Handle.clone hd) k = .ok (some v)
    ∧ LMDB.hGet (LMDB.hReplace H hd k v).2 (Handle.clone hd) k = .ok (some v)
    ∧ LMDB.hGet (LMDB.hRemove (LMDB.hInsert H hd k v).2 hd k).2
        (Handle.clone hd) k = .ok none := by
  have hb1 : hd.idx < (H.update hd (Store.set (H.store hd) k v)).length := by
    rw [Heap.length_update]
    exact hb
  have hst : (H.update hd (Store.set (H.store hd) k v)).store hd
      = Store.set (H.store hd) k v :=
    Heap.store_update_self H hd _ hb
  refine ⟨rfl, ?_, ?_, ?_, ?_, ?_, ?_⟩
  · rw [show (BTreeMapDB.hInsert H hd k v).2
        = H.update hd (Store.set (H.store hd) k v) from rfl]
    rw [BTreeMapDB.bt_hGet_update H hd _ k hb, Store.lookup_set_self]
  · rw [show (BTreeMapDB.hReplace H hd k v).2
        = H.update hd (Store.set (H.store hd) k v) from rfl]
    rw [BTreeMapDB.bt_hGet_update H hd _ k hb, Store.lookup_set_self]
  · simp only [BTreeMapDB.hRemove, BTreeMapDB.remove]
    rw [show (BTreeMapDB.hInsert H hd k v).2
        = H.update hd (Store.set (H.store hd) k v) from rfl]
    rw [hst, BTreeMapDB.bt_hGet_update _ hd _ k hb1, Store.lookup_erase_self]
  · rw [show (LMDB.hInsert H hd k v).2
        = H.update hd (Store.set (H.store hd) k v) from rfl]
    rw [LMDB.lmdb_hGet_update H hd _ k hb, Store.lookup_set_self]
  · simp only [LMDB.hReplace]
    rw [LMDB.lmdb_fetch_and_replace_eq]
    rw [LMDB.lmdb_hGet_update H hd _ k hb, Store.lookup_set_self]
  · simp only [LMDB.hRemove]
    rw [show (LMDB.hInsert H hd k v).2
        = H.update hd (Store.set (H.store hd) k v) from rfl]
    rw [hst, LMDB.remove_present _ k v (Store.lookup_set_self _ k v)]
    rw [LMDB.lmdb_hGet_update _ hd _ k hb1, Store.lookup_erase_self]

/-- Claim C4 witness: on a one-store heap, an insert through handle 0 is
observed by a get through the clone of handle 0, for both engines. -/
theorem C4_clone_shares_store_witness :
    (Handle.mk 0).idx < ([[]] : Heap (List Nat) (List Nat)).length
    ∧ BTreeMapDB.hGet
        (BTreeMapDB.hInsert ([[]] : Heap (List Nat) (List Nat)) ⟨0⟩ [1] [2]).2
        (Handle.clone ⟨0⟩) [1] = .ok (some [2])
    ∧ LMDB.hGet
        (LMDB.hInsert ([[]] : Heap (List Nat) (List Nat)) ⟨0⟩ [1] [2]).2
        (Handle.clone ⟨0⟩) [1] = .ok (some [2]) :=
  ⟨by simp,
   (C4_clone_shares_store [[]] ⟨0⟩ [1] [2] (by simp)).2.1,
   (C4_clone_shares_store [[]] ⟨0⟩ [1] [2] (by simp)).2.2.2.2.1⟩

/-- Claim C1, evaluated at the failing input: on the empty store,
`BTreeMapDB::remove` of the absent key `[0x13]` returns `Ok(())` as the spec
requires, but `LMDB::remove` of the same absent key propagates the engine's
`MDB_NOTFOUND` signal from `mdb_del` as an error instead of succeeding. -/
theorem C1_remove_absent_divergence :
    BTreeMapDB.remove ([] : Store (List Nat) (List Nat)) [0x13] = (.ok (), [])
    ∧ LMDB.remove ([] : Store (List Nat) (List Nat)) [0x13]
        = (.error (.DBError .NotFound), []) := by
  constructor <;> rfl

end DBMapModel
